import Mathlib

/-!
Verification of the survey-aggregation pipeline (`main.py`).

A spreadsheet cell is either a number, a text, or missing (pandas NaN).
Numbers are modelled as rationals (the scripts only ever add, multiply and
divide finitely many finite values).  `pd.to_numeric(..., errors='coerce')`
maps a numeric cell to its value and everything else to NaN, modelled as
`Option ℚ` with `none` for NaN.  Arithmetic on coerced cells propagates NaN
exactly as IEEE floats do for the operations used here (`x * NaN = NaN`,
`x + NaN = NaN`), and pandas reductions that skip NaN are modelled by
dropping `none` entries.
-/

set_option maxRecDepth 10000

inductive Cell where
  | num (q : ℚ)
  | str (s : String)
  | nan
deriving DecidableEq, Repr

/-- A loaded DataFrame: column labels and a row-major grid of cells. -/
structure Table where
  headers : List String
  rows : List (List Cell)
deriving DecidableEq, Repr

/-- Out-of-range access yields NaN; all accesses exercised by the scripts are
in range for tables that reach them. -/
def cellAt (t : Table) (r c : ℕ) : Cell :=
  (t.rows.getD r []).getD c Cell.nan

/-- Label-based column lookup (`df[...]` / `df.iloc[r][name]`): position of the
first column with the given label. -/
def colIdx (t : Table) (name : String) : Option ℕ :=
  t.headers.findIdx? (fun h => h == name)

def cellByName (t : Table) (r : ℕ) (name : String) : Cell :=
  match colIdx t name with
  | some c => cellAt t r c
  | none => Cell.nan

/-- The coercion `pd.to_numeric(x, errors='coerce')`.  Text cells become NaN;
the input files carry their numbers as numeric cells, so numeric-looking
strings are not modelled. -/
def coerce (c : Cell) : Option ℚ :=
  match c with
  | Cell.num q => some q
  | _ => none

/-- The Python `str(x)` used before `.strip()` comparisons.  A numeric or
missing cell never equals any of the fixed Russian marker texts, so its exact
rendering is irrelevant; only text cells matter. -/
def pyStr (c : Cell) : String :=
  match c with
  | Cell.str s => s
  | Cell.num _ => "#num"
  | Cell.nan => "nan"

/-- The list element `str(x).strip() if pd.notna(x) else x`: a NaN keeps its
non-string identity (it can never equal a catalog label). -/
def stripCell (c : Cell) : Option String :=
  match c with
  | Cell.nan => none
  | c => some ((pyStr c).trim)

/-- DEFICIENCIES from `main.py` (6 labels). -/
def DEFICIENCIES : List String :=
  [ "Низкие требования (низкие требования к оцениванию, низкая сложность заданий, отсутствие дедлайнов, много пересдач)"
  , "Нет командных работ (в группах)"
  , "Давать неактуальные знания, изучать устаревший материал, использовать устаревшее ПО"
  , "Преподаватель не имеет опыта по своему предмету, читает лекции монотонно и скучно"
  , "Не идти на контакт со студентами, отказывать в объяснении, не отвечать на вопросы"
  , "Не поощрять творческий подход, инициативность и  самостоятельность студентов" ]

/-- DISCIPLINES from `main.py` (13 names). -/
def DISCIPLINES : List String :=
  [ "Безопасность жизнедеятельности"
  , "Математический анализ"
  , "Алгебра"
  , "Программирование"
  , "Дискретная математика"
  , "Профориентационный семинар"
  , "Проектный семинар"
  , "Практикум по основам разработки технической документации"
  , "Теоретические основы информатики"
  , "История России"
  , "Основы российской государственности"
  , "Английский язык"
  , "Правовая грамотность" ]

/-- The synthetic label prepended in `calculate_deficiency_totals`
(`DEF = ['Много теории, но мало практики.'] + DEFICIENCIES`). -/
def DEFLIST : List String := "Много теории, но мало практики." :: DEFICIENCIES

def expectedColumns : List String :=
  [ "Unnamed: 0", "Unnamed: 1", "Недостаток", "Unnamed: 3", "Unnamed: 4"
  , "Unnamed: 5", "Unnamed: 6", "Unnamed: 7", "Unnamed: 8" ]

/-- The six anonymous score columns checked by the validator. -/
def deficiencyCols6 : List String :=
  [ "Unnamed: 3", "Unnamed: 4", "Unnamed: 5", "Unnamed: 6", "Unnamed: 7", "Unnamed: 8" ]

/-- The seven columns used by both calculators
(`['Недостаток','Unnamed: 3', ..., 'Unnamed: 8']`). -/
def sevenCols : List String := "Недостаток" :: deficiencyCols6

def nbMarker : String := "NB! Все числа - положительные!"

/-- Check `value in [0,10]` on a coerced cell; NaN fails (`between`/range
comparisons on NaN are false in pandas). -/
def inRange0to10 (o : Option ℚ) : Bool :=
  match o with
  | some q => decide (0 ≤ q) && decide (q ≤ 10)
  | none => false

def importance6 (t : Table) : List (Option ℚ) :=
  deficiencyCols6.map (fun c => coerce (cellByName t 1 c))

def scores6 (t : Table) : List (List (Option ℚ)) :=
  (List.range 13).map (fun i => deficiencyCols6.map (fun c => coerce (cellByName t (3 + i) c)))

def colCountOk (t : Table) : Bool := decide (9 ≤ t.headers.length)

def rowCountOk (t : Table) : Bool := decide (16 ≤ t.rows.length)

def headersOk (t : Table) : Bool := decide (t.headers.take 9 = expectedColumns)

def labelsOk (t : Table) : Bool :=
  decide ((deficiencyCols6.map (fun c => stripCell (cellByName t 0 c))) = DEFICIENCIES.map some)

def markerOk (t : Table) : Bool := decide ((pyStr (cellByName t 0 "Unnamed: 1")).trim = nbMarker)

def impMissingOk (t : Table) : Bool := (importance6 t).all (fun o => o.isSome)

def impRangeOk (t : Table) : Bool := (importance6 t).all inRange0to10

/-- Check of `df.iloc[3:16, 0].tolist() == [float(i) for i in range(1, 14)]`:
the first-column cells of the 13 discipline rows must literally be the numbers
1..13. -/
def ordinalsOk (t : Table) : Bool :=
  decide (((List.range 13).map (fun i => cellAt t (3 + i) 0)) =
    ((List.range 13).map (fun i => Cell.num ((i : ℚ) + 1))))

def scoreMissingOk (t : Table) : Bool :=
  (scores6 t).all (fun row => row.all (fun o => o.isSome))

def scoreRangeOk (t : Table) : Bool :=
  (scores6 t).all (fun row => row.all inRange0to10)

/-- Which structural check failed (the printed error message identifies it). -/
inductive CheckFail where
  | colCount | rowCount | headers | labels | marker
  | impMissing | impRange | ordinals | scoreMissing | scoreRange
deriving DecidableEq, Repr

/-- The body of `check_table_structure`, with its early returns, in the
source's order: column count, row count, headers, labels, marker, importance
(missing, range), discipline ordinals, scores (missing, range).  Returns the
first failing check, `none` when the table passes. -/
def checkTableStructureResult (t : Table) : Option CheckFail :=
  if colCountOk t = false then some CheckFail.colCount
  else if rowCountOk t = false then some CheckFail.rowCount
  else if headersOk t = false then some CheckFail.headers
  else if labelsOk t = false then some CheckFail.labels
  else if markerOk t = false then some CheckFail.marker
  else if impMissingOk t = false then some CheckFail.impMissing
  else if impRangeOk t = false then some CheckFail.impRange
  else if ordinalsOk t = false then some CheckFail.ordinals
  else if scoreMissingOk t = false then some CheckFail.scoreMissing
  else if scoreRangeOk t = false then some CheckFail.scoreRange
  else none

def check_table_structure (t : Table) : Bool :=
  (checkTableStructureResult t).isNone

/-- The ten elementary checks in the order the source runs them. -/
def codeChecks : List (CheckFail × (Table → Bool)) :=
  [ (CheckFail.colCount, colCountOk), (CheckFail.rowCount, rowCountOk)
  , (CheckFail.headers, headersOk), (CheckFail.labels, labelsOk)
  , (CheckFail.marker, markerOk), (CheckFail.impMissing, impMissingOk)
  , (CheckFail.impRange, impRangeOk), (CheckFail.ordinals, ordinalsOk)
  , (CheckFail.scoreMissing, scoreMissingOk), (CheckFail.scoreRange, scoreRangeOk) ]

/-- Modelled from the spec: the order stated in §4.1 — column count first,
then the first 9 headers, then the row count, then the data checks. -/
def specChecks : List (CheckFail × (Table → Bool)) :=
  [ (CheckFail.colCount, colCountOk), (CheckFail.headers, headersOk)
  , (CheckFail.rowCount, rowCountOk), (CheckFail.labels, labelsOk)
  , (CheckFail.marker, markerOk), (CheckFail.impMissing, impMissingOk)
  , (CheckFail.impRange, impRangeOk), (CheckFail.ordinals, ordinalsOk)
  , (CheckFail.scoreMissing, scoreMissingOk), (CheckFail.scoreRange, scoreRangeOk) ]

/-- First check in the given order that fails on `t`. -/
def firstFailing (cs : List (CheckFail × (Table → Bool))) (t : Table) : Option CheckFail :=
  (cs.find? (fun c => !(c.2 t))).map (fun c => c.1)

/-! Calculators (`calculate_sumproduct`, `calculate_deficiency_totals`). -/

/-- NaN-propagating product of two coerced cells. -/
def optMul (a b : Option ℚ) : Option ℚ :=
  match a, b with
  | some x, some y => some (x * y)
  | _, _ => none

/-- NaN-propagating sum, as Python `sum` over a float sequence. -/
def optAdd (a b : Option ℚ) : Option ℚ :=
  match a, b with
  | some x, some y => some (x + y)
  | _, _ => none

def optSumList (l : List (Option ℚ)) : Option ℚ := l.foldr optAdd (some 0)

def optDot (l1 l2 : List (Option ℚ)) : Option ℚ := optSumList (List.zipWith optMul l1 l2)

/-- The pandas `Series.rank(ascending=False, method='min')` value of `v`
within `l`: one more than the number of entries strictly greater than `v`
(competition ranking). -/
def rankMin (l : List ℚ) (v : ℚ) : ℕ :=
  1 + l.countP (fun b => decide (v < b))

/-- Row 1 restricted to the seven weighted columns, coerced
(`pd.to_numeric(df.iloc[1][deficiency_columns], errors='coerce')`). -/
def impRow7 (t : Table) : List (Option ℚ) :=
  sevenCols.map (fun c => coerce (cellByName t 1 c))

/-- Rows 3..15 restricted to the seven weighted columns, coerced
(`df.iloc[3:16][deficiency_columns].apply(pd.to_numeric, errors='coerce')`). -/
def scoreRows7 (t : Table) : List (List (Option ℚ)) :=
  (List.range 13).map (fun i => sevenCols.map (fun c => coerce (cellByName t (3 + i) c)))

/-- The per-discipline dot products `sum(importance * scores.iloc[i])`. -/
def totals13 (t : Table) : List (Option ℚ) :=
  (scoreRows7 t).map (fun row => optDot (impRow7 t) row)

/-- `calculate_sumproduct`: one row per discipline, `(name, total, rank)`.
`none` models the `IntCastingNaNError` raised by
`rank(...).astype(int)` when any total is NaN (the caller catches it and
skips the file). -/
def calculate_sumproduct (t : Table) : Option (List (String × ℚ × ℕ)) :=
  let totals := totals13 t
  if totals.all (fun o => o.isSome) then
    let ts := totals.map (fun o => o.getD 0)
    some ((DISCIPLINES.zip ts).map (fun p => (p.1, p.2, rankMin ts p.2)))
  else none

/-- The numeric importance weights (no NaN on the paths that use them). -/
def impQ7 (t : Table) : List ℚ := (impRow7 t).map (fun o => o.getD 0)

/-- `scores.sum(axis=0)`: the per-column sums over the 13 discipline rows. -/
def sums7 (t : Table) : List ℚ :=
  (List.range 7).map (fun j => ((scoreRows7 t).map (fun row => (row.getD j none).getD 0)).sum)

/-- `deficiency_sums * importance`. -/
def weighted7 (t : Table) : List ℚ :=
  List.zipWith (fun s w => s * w) (sums7 t) (impQ7 t)

/-- `calculate_deficiency_totals`: one row per deficiency label,
`(label, weight, score-sum, weighted sum, rank)`; `none` on the two explicit
missing-value early returns. -/
def calculate_deficiency_totals (t : Table) :
    Option (List (String × ℚ × ℚ × ℚ × ℕ)) :=
  if (impRow7 t).any (fun o => o.isNone) then none
  else if (scoreRows7 t).any (fun row => row.any (fun o => o.isNone)) then none
  else
    some ((DEFLIST.zip ((impQ7 t).zip ((sums7 t).zip (weighted7 t)))).map
      (fun p => (p.1, p.2.1, p.2.2.1, p.2.2.2, rankMin (weighted7 t) p.2.2.2)))

/-! The per-run pipeline `process_multiple_files`. -/

/-- `df.iloc[:16, :9].copy()`. -/
def truncTable (t : Table) : Table :=
  { headers := t.headers.take 9, rows := (t.rows.take 16).map (fun r => r.take 9) }

/-- The numeric block appended to `numeric_data`: the coerced importance row
followed by the 13 coerced score rows (14 x 7 coerced cells). -/
def numericBlock (t : Table) : List (List (Option ℚ)) :=
  impRow7 t :: scoreRows7 t

/-- The loop state of `process_multiple_files`: the two per-file result
lists, `numeric_data`, and `first_table`. -/
structure FileState where
  discs : List (List (String × ℚ × ℕ))
  defs : List (List (String × ℚ × ℚ × ℚ × ℕ))
  numeric : List (List (List (Option ℚ)))
  firstTable : Option Table
deriving DecidableEq

def initState : FileState := { discs := [], defs := [], numeric := [], firstTable := none }

/-- One iteration of the file loop.  A `none` file is a read failure
(skipped).  After `first_table` holds a table, the source's
`if first_table==None:` compares a DataFrame with `None`, which raises
`ValueError` (ambiguous truth value); the surrounding `try` catches it and
the file is skipped before anything is appended. -/
def processStep (st : FileState) (file : Option Table) : FileState :=
  match file with
  | none => st
  | some df0 =>
    if check_table_structure df0 then
      let df := truncTable df0
      match st.firstTable with
      | some _ => st
      | none =>
        let st2 : FileState :=
          { st with firstTable := some df, numeric := st.numeric ++ [numericBlock df] }
        match calculate_sumproduct df with
        | none => st2
        | some d =>
          match calculate_deficiency_totals df with
          | none => st2
          | some fd => { st2 with discs := st2.discs ++ [d], defs := st2.defs ++ [fd] }
    else st

/-- Keys of `groupby(..., sort=False)`: distinct labels in first-occurrence
order. -/
def keysInOrder : List String → List String
  | [] => []
  | n :: rest => n :: keysInOrder (rest.filter (fun m => m != n))
termination_by l => l.length
decreasing_by
  simp only [List.length_cons]
  exact Nat.lt_succ_of_le (List.length_filter_le _ _)

/-- The values grouped under one key. -/
def groupVals {α : Type} (rowsAll : List (String × α)) (n : String) : List α :=
  (rowsAll.filter (fun p => p.1 == n)).map (fun p => p.2)

/-- Group mean (`mean` aggregation). -/
def listMean (l : List ℚ) : ℚ := l.sum / (l.length : ℚ)

/-- The square of the pandas sample standard deviation (`std`, `ddof=1`),
kept in ℚ; `none` models the NaN that `std` yields on fewer than two
samples.  Two aggregate tables carry equal standard deviations exactly when
these squares are equal. -/
def listVar (l : List ℚ) : Option ℚ :=
  if 2 ≤ l.length then
    some ((l.map (fun x => (x - listMean l) ^ 2)).sum / ((l.length : ℚ) - 1))
  else none

/-- Lines 291-298: concatenate all per-file discipline rows, group by name
(`sort=False`), take mean and std of the totals, re-sort into catalog order
via the `order` column (labels outside the catalog get a NaN order and sort
last, keeping their relative order), and rank the means
(`rank(ascending=False, method='min')`). -/
def aggregateRows (catalog : List String) (rowsAll : List (String × ℚ)) :
    List (String × ℚ × Option ℚ × ℕ) :=
  let keys := keysInOrder (rowsAll.map Prod.fst)
  let ordered := catalog.filter (fun d => decide (d ∈ keys)) ++
    keys.filter (fun k => decide (k ∉ catalog))
  let stats := ordered.map (fun n => (n, listMean (groupVals rowsAll n), listVar (groupVals rowsAll n)))
  stats.map (fun s => (s.1, s.2.1, s.2.2, rankMin (stats.map (fun x => x.2.1)) s.2.1))

/-- Lines 301-311: the deficiency aggregate.  Per label: mean weight, mean
score-sum, mean and std of the weighted sum, catalog re-sort, rank on the
mean weighted sum. -/
def aggregateDef (catalog : List String) (rowsAll : List (String × ℚ × ℚ × ℚ)) :
    List (String × ℚ × ℚ × ℚ × Option ℚ × ℕ) :=
  let keys := keysInOrder (rowsAll.map Prod.fst)
  let ordered := catalog.filter (fun d => decide (d ∈ keys)) ++
    keys.filter (fun k => decide (k ∉ catalog))
  let stats := ordered.map (fun n =>
    let g := groupVals rowsAll n
    (n, listMean (g.map (fun v => v.1)), listMean (g.map (fun v => v.2.1)),
      listMean (g.map (fun v => v.2.2)), listVar (g.map (fun v => v.2.2))))
  stats.map (fun s =>
    (s.1, s.2.1, s.2.2.1, s.2.2.2.1, s.2.2.2.2, rankMin (stats.map (fun x => x.2.2.2.1)) s.2.2.2.1))

/-- The pandas NaN-skipping mean of one grid cell across the collected
numeric blocks (`pd.concat(numeric_data).groupby(level=0).mean()`); NaN when
every sample is NaN. -/
def meanOpt (l : List (Option ℚ)) : Option ℚ :=
  let vs := l.filterMap id
  if vs.isEmpty then none else some (vs.sum / (vs.length : ℚ))

/-- The 14 x 7 grid of per-cell means over all numeric blocks. -/
def meanNumeric (blocks : List (List (List (Option ℚ)))) : List (List (Option ℚ)) :=
  (List.range 14).map (fun r => (List.range 7).map (fun c =>
    meanOpt (blocks.map (fun b => (b.getD r []).getD c none))))

/-- The pandas NaN-skipping `.sum()` of a row of coerced cells. -/
def sumSkipNa (l : List (Option ℚ)) : ℚ := (l.filterMap id).sum

/-- Python `round` on a float: round half to even. -/
def roundHalfEven (q : ℚ) : ℤ :=
  let f := ⌊q⌋
  let r := q - (f : ℚ)
  if r < 1 / 2 then f
  else if 1 / 2 < r then f + 1
  else if f % 2 = 0 then f else f + 1

/-- Python `round(x, 2)`. -/
def pyRound2 (q : ℚ) : ℚ := ((roundHalfEven (q * 100) : ℤ) : ℚ) / 100

/-- Lines 276-283: the two derived negative-rating columns of the mean-value
source table.  `mainabs` is the NaN-skipping sum of the (mean) importance row
times 10; per discipline row, the absolute rating is the NaN-skipping sum of
the elementwise product with the importance row, and the relative rating is
`abs / mainabs * 100` (computed from the unrounded absolute rating); both are
stored rounded to two decimals, the relative one formatted as a percent
string. -/
def negativeRatings (imp : List (Option ℚ)) (scoreRows : List (List (Option ℚ))) :
    List (ℚ × ℚ) :=
  let mainabs := sumSkipNa imp * 10
  scoreRows.map (fun row =>
    let ab := sumSkipNa (List.zipWith optMul row imp)
    (pyRound2 ab, pyRound2 (ab / mainabs * 100)))

instance : DecidableEq (String × ℚ × ℚ × ℚ × ℕ) :=
  fun _ _ => decidable_of_iff _ Prod.ext_iff.symm

instance : DecidableEq (String × ℚ × ℚ × ℚ × Option ℚ × ℕ) :=
  fun _ _ => decidable_of_iff _ Prod.ext_iff.symm

/-- Everything `process_multiple_files` computes and hands to
`save_results`: the two aggregate tables, the mean numeric data written back
into the first table, and the two derived rating columns. -/
structure RunResult where
  disciplines : List (String × ℚ × Option ℚ × ℕ)
  deficiencies : List (String × ℚ × ℚ × ℚ × Option ℚ × ℕ)
  meanImportance : List (Option ℚ)
  meanScores : List (List (Option ℚ))
  ratings : List (ℚ × ℚ)
deriving DecidableEq

instance : DecidableEq (Except String RunResult) := fun a b =>
  match a, b with
  | Except.ok x, Except.ok y => decidable_of_iff (x = y) (by simp)
  | Except.error x, Except.error y => decidable_of_iff (x = y) (by simp)
  | Except.ok _, Except.error _ => isFalse (by simp)
  | Except.error _, Except.ok _ => isFalse (by simp)

/-- `process_multiple_files` over the discovered file list (each entry is the
outcome of `read_excel_file`: `none` on a read failure).  An `Except.error`
models the early returns that log a run-fatal message and write no output
file. -/
def processFiles (files : List (Option Table)) : Except String RunResult :=
  if files.isEmpty then Except.error "В директории не найдено .xlsx или .xls файлов"
  else
    let st := files.foldl processStep initState
    if st.discs.isEmpty || st.defs.isEmpty || st.firstTable.isNone then
      Except.error "Не удалось обработать ни один файл"
    else
      let mb := meanNumeric st.numeric
      let imp := mb.getD 0 []
      let sc := mb.drop 1
      Except.ok
        { disciplines := aggregateRows DISCIPLINES ((st.discs.flatten).map (fun r => (r.1, r.2.1)))
        , deficiencies := aggregateDef DEFLIST
            ((st.defs.flatten).map (fun r => (r.1, (r.2.1, r.2.2.1, r.2.2.2.1))))
        , meanImportance := imp
        , meanScores := sc
        , ratings := negativeRatings imp sc }

/-- A file that, processed on its own from a fresh state, contributes a row
set to both aggregation lists. -/
def fileOk (file : Option Table) : Bool :=
  match file with
  | none => false
  | some t =>
    check_table_structure t &&
    (calculate_sumproduct (truncTable t)).isSome &&
    (calculate_deficiency_totals (truncTable t)).isSome

def exceptIsOk (e : Except String RunResult) : Bool :=
  match e with
  | Except.ok _ => true
  | Except.error _ => false

/-! Claim-side accessors: the weight and score entries of the seven weighted
columns, read directly off the (truncated) table. -/

/-- The j-th importance weight (after coercion, NaN read as 0). -/
def importanceAt (t : Table) (j : ℕ) : ℚ :=
  (coerce (cellByName t 1 (sevenCols.getD j ""))).getD 0

/-- The score of discipline `i` in weighted column `j`. -/
def scoreAt (t : Table) (i j : ℕ) : ℚ :=
  (coerce (cellByName t (3 + i) (sevenCols.getD j ""))).getD 0

/-! Concrete input tables used as witnesses and counterexamples. -/

/-- Row 0 of a structurally valid sheet: NB marker in `Unnamed: 1`, the six
catalog labels in the six score columns. -/
def row0Valid : List Cell :=
  [Cell.nan, Cell.str nbMarker, Cell.nan] ++ DEFICIENCIES.map Cell.str

/-- A discipline row: ordinal in column 0, a chosen cell in the `Недостаток`
column, the same score `s` in the six score columns. -/
def mkScoreRow (i : ℕ) (c2 : Cell) (s : ℚ) : List Cell :=
  [Cell.num ((i : ℚ) + 1), Cell.nan, c2] ++ List.replicate 6 (Cell.num s)

/-- A fully valid and computable sheet: every weight 1, every score `s`
(including the `Недостаток` column). -/
def vtScore (s : ℚ) : Table :=
  { headers := expectedColumns
  , rows := [row0Valid, [Cell.nan, Cell.nan, Cell.num 1] ++ List.replicate 6 (Cell.num 1),
      List.replicate 9 Cell.nan] ++ (List.range 13).map (fun i => mkScoreRow i (Cell.num s) s) }

def vtA : Table := vtScore 1

def vtB : Table := vtScore 2

/-- A sheet that passes every validator check but whose `Недостаток` column
holds text in the importance row, so the seventh coerced weight is NaN. -/
def vt9 : Table :=
  { headers := expectedColumns
  , rows := [row0Valid, [Cell.nan, Cell.nan, Cell.str "Важность"] ++ List.replicate 6 (Cell.num 1),
      List.replicate 9 Cell.nan] ++ (List.range 13).map (fun i => mkScoreRow i (Cell.num 1) 1) }

/-- A sheet with nine columns but the wrong header names and only ten rows:
it fails both the header check and the row-count check. -/
def vt7 : Table :=
  { headers := ["A", "B", "C", "D", "E", "F", "G", "H", "I"]
  , rows := List.replicate 10 (List.replicate 9 Cell.nan) }

/-! Helper lemmas. -/

theorem totals13_length (t : Table) : (totals13 t).length = 13 := by
  simp [totals13, scoreRows7]

theorem sumproduct_shape {t : Table} {rows : List (String × ℚ × ℕ)}
    (h : calculate_sumproduct t = some rows) :
    ∃ ts : List ℚ, ts.length = 13 ∧
      rows = (DISCIPLINES.zip ts).map (fun p => (p.1, p.2, rankMin ts p.2)) := by
  unfold calculate_sumproduct at h
  by_cases ha : (totals13 t).all (fun o => o.isSome) = true
  · refine ⟨(totals13 t).map (fun o => o.getD 0), by simp [totals13_length], ?_⟩
    simp only [ha, if_true] at h
    exact (Option.some.injEq _ _).mp h |>.symm
  · simp only [Bool.not_eq_true] at ha
    simp [ha] at h

theorem impQ7_length (t : Table) : (impQ7 t).length = 7 := by
  simp [impQ7, impRow7, sevenCols, deficiencyCols6]

theorem sums7_length (t : Table) : (sums7 t).length = 7 := by
  simp [sums7]

theorem weighted7_length (t : Table) : (weighted7 t).length = 7 := by
  simp [weighted7, List.length_zipWith, sums7_length, impQ7_length]

theorem deficiency_shape {t : Table} {rows : List (String × ℚ × ℚ × ℚ × ℕ)}
    (h : calculate_deficiency_totals t = some rows) :
    rows = (DEFLIST.zip ((impQ7 t).zip ((sums7 t).zip (weighted7 t)))).map
      (fun p => (p.1, p.2.1, p.2.2.1, p.2.2.2, rankMin (weighted7 t) p.2.2.2)) := by
  unfold calculate_deficiency_totals at h
  by_cases h1 : (impRow7 t).any (fun o => o.isNone) = true
  · simp [h1] at h
  · by_cases h2 : (scoreRows7 t).any (fun row => row.any (fun o => o.isNone)) = true
    · simp [h1, h2] at h
    · simp only [Bool.not_eq_true] at h1 h2
      simp only [h1, h2, Bool.false_eq_true, if_false] at h
      exact (Option.some.injEq _ _).mp h |>.symm

theorem rankMin_le_of_le (l : List ℚ) {a b : ℚ} (h : b ≤ a) :
    rankMin l a ≤ rankMin l b := by
  unfold rankMin
  have : l.countP (fun x => decide (a < x)) ≤ l.countP (fun x => decide (b < x)) := by
    refine List.countP_mono_left (fun x _ hx => ?_)
    simp only [decide_eq_true_eq] at hx ⊢
    exact lt_of_le_of_lt h hx
  omega

theorem countP_gt_strict {l : List ℚ} {a x : ℚ} (hx : x ∈ l) (hax : a < x) :
    l.countP (fun b => decide (x < b)) < l.countP (fun b => decide (a < b)) := by
  induction l with
  | nil => simp at hx
  | cons y ys ih =>
    rcases List.mem_cons.mp hx with hy | hys
    · subst hy
      simp only [List.countP_cons, decide_eq_true_eq, lt_irrefl, if_false, hax, if_true]
      have : ys.countP (fun b => decide (x < b)) ≤ ys.countP (fun b => decide (a < b)) := by
        refine List.countP_mono_left (fun b _ hb => ?_)
        simp only [decide_eq_true_eq] at hb ⊢
        exact lt_trans hax hb
      omega
    · have hrec := ih hys
      rw [List.countP_cons, List.countP_cons]
      simp only [decide_eq_true_eq]
      by_cases hxy : x < y
      · rw [if_pos hxy, if_pos (lt_trans hax hxy)]
        omega
      · by_cases hay : a < y
        · rw [if_neg hxy, if_pos hay]
          omega
        · rw [if_neg hxy, if_neg hay]
          omega

theorem rankMin_lt_of_mem {l : List ℚ} {a x : ℚ} (hx : x ∈ l) (hax : a < x) :
    rankMin l x < rankMin l a := by
  unfold rankMin
  have := countP_gt_strict hx hax
  omega

theorem map_comp_fst {α β γ : Type} (A : List α) (X : List β) (g : α → γ)
    (h : A.length ≤ X.length) : (A.zip X).map (fun p => g p.1) = A.map g := by
  rw [show (fun p : α × β => g p.1) = g ∘ Prod.fst from rfl, ← List.map_map,
    List.map_fst_zip _ _ h]

theorem map_comp_snd {α β γ : Type} (A : List α) (X : List β) (g : β → γ)
    (h : X.length ≤ A.length) : (A.zip X).map (fun p => g p.2) = X.map g := by
  rw [show (fun p : α × β => g p.2) = g ∘ Prod.snd from rfl, ← List.map_map,
    List.map_snd_zip _ _ h]

theorem sumproduct_cols {t : Table} {rows : List (String × ℚ × ℕ)}
    (h : calculate_sumproduct t = some rows) :
    rows.map (fun r => r.1) = DISCIPLINES ∧
    rows.map (fun r => r.2.2) =
      (rows.map (fun r => r.2.1)).map (rankMin (rows.map (fun r => r.2.1))) := by
  obtain ⟨ts, hlen, hrows⟩ := sumproduct_shape h
  have hl : DISCIPLINES.length ≤ ts.length := by rw [hlen]; rfl
  have hl2 : ts.length ≤ DISCIPLINES.length := by rw [hlen]; rfl
  have htot : rows.map (fun r => r.2.1) = ts := by
    rw [hrows, List.map_map]
    have := map_comp_snd DISCIPLINES ts id hl2
    simpa using this
  refine ⟨?_, ?_⟩
  · rw [hrows, List.map_map]
    have := map_comp_fst DISCIPLINES ts id hl
    simpa using this
  · rw [htot, hrows, List.map_map]
    exact map_comp_snd DISCIPLINES ts (rankMin ts) hl2

theorem zipY_length (t : Table) : ((sums7 t).zip (weighted7 t)).length = 7 := by
  rw [List.length_zip, sums7_length, weighted7_length]
  decide

theorem zipX_length (t : Table) :
    ((impQ7 t).zip ((sums7 t).zip (weighted7 t))).length = 7 := by
  rw [List.length_zip, impQ7_length, zipY_length]
  decide

theorem map_nested_weighted {γ : Type} (t : Table) (g : ℚ → γ) :
    ((DEFLIST.zip ((impQ7 t).zip ((sums7 t).zip (weighted7 t)))).map (fun p => g p.2.2.2)) =
      (weighted7 t).map g := by
  have e1 := map_comp_snd DEFLIST ((impQ7 t).zip ((sums7 t).zip (weighted7 t)))
    (fun x => g x.2.2) (by rw [zipX_length]; exact Nat.le.refl)
  have e2 := map_comp_snd (impQ7 t) ((sums7 t).zip (weighted7 t))
    (fun y => g y.2) (by rw [zipY_length, impQ7_length])
  have e3 := map_comp_snd (sums7 t) (weighted7 t) g
    (by rw [weighted7_length, sums7_length])
  exact e1.trans (e2.trans e3)

theorem deficiency_cols {t : Table} {rows : List (String × ℚ × ℚ × ℚ × ℕ)}
    (h : calculate_deficiency_totals t = some rows) :
    rows.map (fun r => r.1) = DEFLIST ∧
    rows.map (fun r => r.2.2.2.1) = weighted7 t ∧
    rows.map (fun r => r.2.2.2.2) =
      (rows.map (fun r => r.2.2.2.1)).map (rankMin (rows.map (fun r => r.2.2.2.1))) := by
  have hrows := deficiency_shape h
  have hw : rows.map (fun r => r.2.2.2.1) = weighted7 t := by
    rw [hrows, List.map_map]
    have := map_nested_weighted t (id : ℚ → ℚ)
    simpa using this
  refine ⟨?_, hw, ?_⟩
  · rw [hrows, List.map_map]
    have := map_comp_fst DEFLIST ((impQ7 t).zip ((sums7 t).zip (weighted7 t))) id
      (by rw [zipX_length]; exact Nat.le.refl)
    simpa using this
  · rw [hw, hrows, List.map_map]
    exact map_nested_weighted t (rankMin (weighted7 t))

theorem rankMin_eq_one_of_max {l : List ℚ} {a : ℚ} (h : ∀ b ∈ l, b ≤ a) :
    rankMin l a = 1 := by
  unfold rankMin
  have hz : l.countP (fun b => decide (a < b)) = 0 :=
    List.countP_eq_zero.mpr (fun b hb => by
      simp only [decide_eq_true_eq]
      exact not_lt.mpr (h b hb))
  omega

theorem rankMin_competition (l : List ℚ) (a : ℚ) :
    rankMin l a = 1 + l.countP (fun b => decide (rankMin l b < rankMin l a)) := by
  have hcong : l.countP (fun b => decide (rankMin l b < rankMin l a)) =
      l.countP (fun b => decide (a < b)) :=
    List.countP_congr (fun x hx => by
      simp only [decide_eq_true_eq]
      constructor
      · intro hlt
        by_contra hax
        exact absurd hlt (not_lt.mpr (rankMin_le_of_le l (not_lt.mp hax)))
      · intro hax
        exact rankMin_lt_of_mem hx hax)
  rw [hcong]
  rfl

theorem aggregateRows_rank_col (catalog : List String) (rowsAll : List (String × ℚ)) :
    (aggregateRows catalog rowsAll).map (fun r => r.2.2.2) =
      ((aggregateRows catalog rowsAll).map (fun r => r.2.1)).map
        (rankMin ((aggregateRows catalog rowsAll).map (fun r => r.2.1))) := by
  simp only [aggregateRows, List.map_map]
  rfl

theorem aggregateDef_rank_col (catalog : List String)
    (rowsAll : List (String × ℚ × ℚ × ℚ)) :
    (aggregateDef catalog rowsAll).map (fun r => r.2.2.2.2.2) =
      ((aggregateDef catalog rowsAll).map (fun r => r.2.2.2.1)).map
        (rankMin ((aggregateDef catalog rowsAll).map (fun r => r.2.2.2.1))) := by
  simp only [aggregateDef, List.map_map]
  rfl

/-- C4: in every results table (per-file disciplines, per-file deficiencies,
and both aggregate tables) ranks are competition ranks on the total in
descending order: the largest total gets rank 1, a larger total never gets a
larger rank, equal totals share a rank, and each rank exceeds by one the
number of entries ranked strictly better (1,1,3,4 - never 1,1,2,3); the rank
column of each of the four tables is `rankMin` of its totals column. -/
theorem ranks_follow_competition_ranking :
    (∀ (l : List ℚ) (a : ℚ), a ∈ l → (∀ b ∈ l, b ≤ a) → rankMin l a = 1) ∧
    (∀ (l : List ℚ) (a b : ℚ), b ≤ a → rankMin l a ≤ rankMin l b) ∧
    (∀ (l : List ℚ) (a b : ℚ), a = b → rankMin l a = rankMin l b) ∧
    (∀ (l : List ℚ) (a : ℚ), a ∈ l →
      rankMin l a = 1 + l.countP (fun b => decide (rankMin l b < rankMin l a))) ∧
    (∀ (t : Table) (rows : List (String × ℚ × ℕ)), calculate_sumproduct t = some rows →
      rows.map (fun r => r.2.2) =
        (rows.map (fun r => r.2.1)).map (rankMin (rows.map (fun r => r.2.1)))) ∧
    (∀ (t : Table) (rows : List (String × ℚ × ℚ × ℚ × ℕ)),
      calculate_deficiency_totals t = some rows →
      rows.map (fun r => r.2.2.2.2) =
        (rows.map (fun r => r.2.2.2.1)).map (rankMin (rows.map (fun r => r.2.2.2.1)))) ∧
    (∀ (catalog : List String) (rowsAll : List (String × ℚ)),
      (aggregateRows catalog rowsAll).map (fun r => r.2.2.2) =
        ((aggregateRows catalog rowsAll).map (fun r => r.2.1)).map
          (rankMin ((aggregateRows catalog rowsAll).map (fun r => r.2.1)))) ∧
    (∀ (catalog : List String) (rowsAll : List (String × ℚ × ℚ × ℚ)),
      (aggregateDef catalog rowsAll).map (fun r => r.2.2.2.2.2) =
        ((aggregateDef catalog rowsAll).map (fun r => r.2.2.2.1)).map
          (rankMin ((aggregateDef catalog rowsAll).map (fun r => r.2.2.2.1)))) := by
  refine ⟨fun l a _ h => rankMin_eq_one_of_max h,
    fun l a b h => rankMin_le_of_le l h,
    fun l a b h => by rw [h],
    fun l a _ => rankMin_competition l a,
    fun t rows h => (sumproduct_cols h).2,
    fun t rows h => (deficiency_cols h).2.2,
    aggregateRows_rank_col,
    aggregateDef_rank_col⟩

theorem ranks_follow_competition_ranking_witness :
    rankMin [3, 1, 3] 3 = 1 ∧
    rankMin [3, 1, 3] 3 ≤ rankMin [3, 1, 3] 1 ∧
    rankMin [3, 1, 3] 2 = rankMin [3, 1, 3] 2 ∧
    rankMin [3, 1, 3] 1 =
      1 + [3, 1, 3].countP (fun b => decide (rankMin [3, 1, 3] b < rankMin [3, 1, 3] 1)) ∧
    (DISCIPLINES.map (fun d => (d, (7 : ℚ), 1))).map (fun r => r.2.2) =
      ((DISCIPLINES.map (fun d => (d, (7 : ℚ), 1))).map (fun r => r.2.1)).map
        (rankMin ((DISCIPLINES.map (fun d => (d, (7 : ℚ), 1))).map (fun r => r.2.1))) ∧
    (DEFLIST.map (fun n => (n, (1 : ℚ), (13 : ℚ), (13 : ℚ), 1))).map (fun r => r.2.2.2.2) =
      ((DEFLIST.map (fun n => (n, (1 : ℚ), (13 : ℚ), (13 : ℚ), 1))).map
          (fun r => r.2.2.2.1)).map
        (rankMin ((DEFLIST.map (fun n => (n, (1 : ℚ), (13 : ℚ), (13 : ℚ), 1))).map
          (fun r => r.2.2.2.1))) :=
  ⟨ranks_follow_competition_ranking.1 [3, 1, 3] 3 (by with_unfolding_all decide)
      (by with_unfolding_all decide),
   ranks_follow_competition_ranking.2.1 [3, 1, 3] 3 1 (by with_unfolding_all decide),
   ranks_follow_competition_ranking.2.2.1 [3, 1, 3] 2 2 rfl,
   ranks_follow_competition_ranking.2.2.2.1 [3, 1, 3] 1 (by with_unfolding_all decide),
   ranks_follow_competition_ranking.2.2.2.2.1 vtA (DISCIPLINES.map (fun d => (d, (7 : ℚ), 1)))
     (by with_unfolding_all decide),
   ranks_follow_competition_ranking.2.2.2.2.2.1 vtA
     (DEFLIST.map (fun n => (n, (1 : ℚ), (13 : ℚ), (13 : ℚ), 1)))
     (by with_unfolding_all decide)⟩

theorem optSumList_some : ∀ {l : List (Option ℚ)} {s : ℚ}, optSumList l = some s →
    s = (l.map (fun o => o.getD 0)).sum
  | [], s, h => by
    simp only [optSumList, List.foldr_nil, Option.some.injEq] at h
    simp [← h]
  | o :: l, s, h => by
    cases o with
    | none => simp [optSumList, optAdd] at h
    | some x =>
      cases hl : optSumList l with
      | none =>
        rw [optSumList, List.foldr_cons] at h
        rw [show List.foldr optAdd (some 0) l = optSumList l from rfl, hl] at h
        simp [optAdd] at h
      | some s2 =>
        rw [optSumList, List.foldr_cons] at h
        rw [show List.foldr optAdd (some 0) l = optSumList l from rfl, hl] at h
        simp only [optAdd, Option.some.injEq] at h
        have := optSumList_some hl
        simp only [List.map_cons, List.sum_cons, Option.getD_some]
        rw [← this, ← h]

theorem getD_map_lt {α β : Type} (f : α → β) (d1 : β) (d2 : α) :
    ∀ (l : List α) (j : ℕ), j < l.length → (l.map f).getD j d1 = f (l.getD j d2)
  | [], j, h => by simp at h
  | a :: l, 0, _ => rfl
  | a :: l, j + 1, h => by
    simp only [List.map_cons, List.getD_cons_succ]
    exact getD_map_lt f d1 d2 l j (by simpa using h)

theorem map_getD_zipWith_optMul : ∀ (l1 l2 : List (Option ℚ)),
    (List.zipWith optMul l1 l2).map (fun o => o.getD 0) =
      List.zipWith (fun a b => a * b) (l1.map (fun o => o.getD 0)) (l2.map (fun o => o.getD 0))
  | [], _ => by simp
  | _ :: _, [] => by simp
  | a :: l1, b :: l2 => by
    simp only [List.zipWith_cons_cons, List.map_cons]
    refine congrArg₂ _ ?_ (map_getD_zipWith_optMul l1 l2)
    cases a <;> cases b <;> simp [optMul]

theorem zipWith_mul_eq_range_map : ∀ (n : ℕ) (l1 l2 : List ℚ), l1.length = n →
    l2.length = n → List.zipWith (fun a b => a * b) l1 l2 =
      (List.range n).map (fun j => l1.getD j 0 * l2.getD j 0)
  | 0, l1, l2, h1, h2 => by
    rw [List.length_eq_zero.mp h1, List.length_eq_zero.mp h2]
    rfl
  | n + 1, l1, l2, h1, h2 => by
    cases l1 with
    | nil => simp at h1
    | cons a l1 =>
      cases l2 with
      | nil => simp at h2
      | cons b l2 =>
        simp only [List.zipWith_cons_cons, List.range_succ_eq_map, List.map_cons,
          List.getD_cons_zero, List.map_map]
        refine congrArg₂ _ rfl ?_
        rw [zipWith_mul_eq_range_map n l1 l2 (by simpa using h1) (by simpa using h2)]
        refine List.map_congr_left (fun j _ => ?_)
        simp [Function.comp, Nat.succ_eq_add_one, List.getD_cons_succ]

theorem sumproduct_some_guard {t : Table} {rows : List (String × ℚ × ℕ)}
    (h : calculate_sumproduct t = some rows) :
    (totals13 t).all (fun o => o.isSome) = true ∧
    rows = (DISCIPLINES.zip ((totals13 t).map (fun o => o.getD 0))).map
      (fun p => (p.1, p.2, rankMin ((totals13 t).map (fun o => o.getD 0)) p.2)) := by
  unfold calculate_sumproduct at h
  by_cases ha : (totals13 t).all (fun o => o.isSome) = true
  · refine ⟨ha, ?_⟩
    simp only [ha, if_true] at h
    exact ((Option.some.injEq _ _).mp h).symm
  · simp only [Bool.not_eq_true] at ha
    simp [ha] at h

theorem impQ_len (t : Table) : ((impRow7 t).map (fun o => o.getD 0)).length = 7 := by
  simp [impRow7, sevenCols, deficiencyCols6]

theorem rowGen_len (t : Table) (i : ℕ) :
    ((sevenCols.map (fun c => coerce (cellByName t (3 + i) c))).map (fun o => o.getD 0)).length = 7 := by
  simp [sevenCols, deficiencyCols6]

/-- C3: for every validated table, the weighted total of discipline `i` is the
dot product over all SEVEN weighted columns - the six anonymous score columns
plus the numeric-coerced `Недостаток` label column with its own coerced
weight. -/
theorem discipline_totals_are_seven_wide_sumproduct (t : Table)
    (rows : List (String × ℚ × ℕ)) (_hck : check_table_structure t = true)
    (h : calculate_sumproduct t = some rows) :
    rows.map (fun r => r.2.1) =
      (List.range 13).map (fun i =>
        ((List.range 7).map (fun j => importanceAt t j * scoreAt t i j)).sum) := by
  obtain ⟨hall, hrows⟩ := sumproduct_some_guard h
  have hlen : ((totals13 t).map (fun o => o.getD 0)).length = 13 := by
    simp [totals13_length]
  have htot : rows.map (fun r => r.2.1) = (totals13 t).map (fun o => o.getD 0) := by
    rw [hrows, List.map_map]
    have := map_comp_snd DISCIPLINES ((totals13 t).map (fun o => o.getD 0)) id
      (by rw [hlen]; exact Nat.le.refl)
    simpa using this
  rw [htot]
  have ht13 : totals13 t = (List.range 13).map
      (fun i => optDot (impRow7 t) (sevenCols.map (fun c => coerce (cellByName t (3 + i) c)))) := by
    unfold totals13 scoreRows7
    rw [List.map_map]
    rfl
  rw [ht13, List.map_map]
  refine List.map_congr_left (fun i hi => ?_)
  have hmem : optDot (impRow7 t) (sevenCols.map (fun c => coerce (cellByName t (3 + i) c)))
      ∈ totals13 t := by
    rw [ht13]
    exact List.mem_map_of_mem _ hi
  have hsome := List.all_eq_true.mp hall _ hmem
  obtain ⟨s, hs⟩ := Option.isSome_iff_exists.mp hsome
  simp only [Function.comp_apply, hs, Option.getD_some]
  rw [optSumList_some hs, map_getD_zipWith_optMul,
    zipWith_mul_eq_range_map 7 _ _ (impQ_len t) (rowGen_len t i)]
  refine congrArg _ (List.map_congr_left (fun j hj => ?_))
  have hj7 : j < 7 := List.mem_range.mp hj
  have e1 : (impRow7 t).map (fun o => o.getD 0) =
      sevenCols.map (fun c => (coerce (cellByName t 1 c)).getD 0) := by
    unfold impRow7
    rw [List.map_map]
    rfl
  have e2 : ((sevenCols.map (fun c => coerce (cellByName t (3 + i) c))).map (fun o => o.getD 0)) =
      sevenCols.map (fun c => (coerce (cellByName t (3 + i) c)).getD 0) := by
    rw [List.map_map]
    rfl
  have h7 : j < sevenCols.length := hj7
  rw [e1, e2, getD_map_lt _ 0 "" sevenCols j h7, getD_map_lt _ 0 "" sevenCols j h7]
  rfl

theorem discipline_totals_are_seven_wide_sumproduct_witness :
    (DISCIPLINES.map (fun d => (d, (7 : ℚ), 1))).map (fun r => r.2.1) =
      (List.range 13).map (fun i =>
        ((List.range 7).map (fun j => importanceAt vtA j * scoreAt vtA i j)).sum) :=
  discipline_totals_are_seven_wide_sumproduct vtA (DISCIPLINES.map (fun d => (d, (7 : ℚ), 1)))
    (by with_unfolding_all decide) (by with_unfolding_all decide)

/-- C7 counterexample: the source checks the row count BEFORE the first nine
headers, so on a nine-column, ten-row table with wrong header names the
reported failure is the row count, not the header mismatch that the spec's
order (headers before row count) would report. -/
theorem validation_order_counterexample :
    checkTableStructureResult vt7 = some CheckFail.rowCount ∧
    firstFailing specChecks vt7 = some CheckFail.headers ∧
    checkTableStructureResult vt7 ≠ firstFailing specChecks vt7 := by
  refine ⟨?_, ?_, ?_⟩ <;> with_unfolding_all decide

/-- C7 amended: validation short-circuits on the first failure in the
source's order - column count, then row count, then the first nine headers,
then deficiency labels, marker text, importance values (missing, range),
discipline ordinals, and score values (missing, range); the reported failure
is always the earliest check in that order that fails. -/
theorem validation_reports_first_failure_in_code_order (t : Table) :
    checkTableStructureResult t = firstFailing codeChecks t := by
  unfold checkTableStructureResult firstFailing codeChecks
  cases h1 : colCountOk t
  · simp [List.find?, h1]
  · cases h2 : rowCountOk t
    · simp [List.find?, h1, h2]
    · cases h3 : headersOk t
      · simp [List.find?, h1, h2, h3]
      · cases h4 : labelsOk t
        · simp [List.find?, h1, h2, h3, h4]
        · cases h5 : markerOk t
          · simp [List.find?, h1, h2, h3, h4, h5]
          · cases h6 : impMissingOk t
            · simp [List.find?, h1, h2, h3, h4, h5, h6]
            · cases h7 : impRangeOk t
              · simp [List.find?, h1, h2, h3, h4, h5, h6, h7]
              · cases h8 : ordinalsOk t
                · simp [List.find?, h1, h2, h3, h4, h5, h6, h7, h8]
                · cases h9 : scoreMissingOk t
                  · simp [List.find?, h1, h2, h3, h4, h5, h6, h7, h8, h9]
                  · cases h10 : scoreRangeOk t
                    · simp [List.find?, h1, h2, h3, h4, h5, h6, h7, h8, h9, h10]
                    · simp [List.find?, h1, h2, h3, h4, h5, h6, h7, h8, h9, h10]

theorem keysInOrder_nodup_self : ∀ (ns : List String), ns.Nodup → keysInOrder ns = ns
  | [], _ => by simp [keysInOrder]
  | n :: rest, h => by
    have hn : n ∉ rest := (List.nodup_cons.mp h).1
    have hrest : rest.filter (fun m => m != n) = rest :=
      List.filter_eq_self.mpr (fun m hm => by
        simp only [bne_iff_ne, ne_eq, decide_eq_true_eq]
        exact fun e => hn (e ▸ hm))
    simp only [keysInOrder, hrest]
    exact congrArg _ (keysInOrder_nodup_self rest (List.nodup_cons.mp h).2)

theorem groupVals_nil_of_not_mem {α : Type} (n : String) :
    ∀ (ns : List String) (vs : List α), n ∉ ns → groupVals (ns.zip vs) n = []
  | [], _, _ => rfl
  | _ :: _, [], _ => rfl
  | m :: ns, v :: vs, h => by
    have hmn : (m == n) = false :=
      beq_eq_false_iff_ne.mpr (fun e => h (e ▸ List.mem_cons_self m ns))
    simp only [List.zip_cons_cons, groupVals, List.filter_cons, hmn, Bool.false_eq_true,
      if_false]
    exact groupVals_nil_of_not_mem n ns vs (fun hmem => h (List.mem_cons_of_mem _ hmem))

theorem map_groupVals_zip {α β : Type} (f : String → List α → β) :
    ∀ (ns : List String) (vs : List α), ns.Nodup → vs.length = ns.length →
      ns.map (fun n => f n (groupVals (ns.zip vs) n)) = (ns.zip vs).map (fun p => f p.1 [p.2])
  | [], vs, _, _ => rfl
  | n :: ns, vs, hnd, hlen => by
    cases vs with
    | nil => simp at hlen
    | cons v vs =>
      have hn : n ∉ ns := (List.nodup_cons.mp hnd).1
      have hnd2 := (List.nodup_cons.mp hnd).2
      have hlen2 : vs.length = ns.length := by simpa using hlen
      simp only [List.zip_cons_cons, List.map_cons]
      refine congrArg₂ _ ?_ ?_
      · have hh : groupVals ((n, v) :: ns.zip vs) n = v :: groupVals (ns.zip vs) n := by
          simp [groupVals, List.filter_cons]
        rw [hh, groupVals_nil_of_not_mem n ns vs hn]
      · have hcong : ns.map (fun m => f m (groupVals ((n, v) :: ns.zip vs) m)) =
            ns.map (fun m => f m (groupVals (ns.zip vs) m)) :=
          List.map_congr_left (fun m hm => by
            have hnm : (n == m) = false :=
              beq_eq_false_iff_ne.mpr (fun e => hn (e ▸ hm))
            have hg : groupVals ((n, v) :: ns.zip vs) m = groupVals (ns.zip vs) m := by
              simp only [groupVals, List.filter_cons, hnm, Bool.false_eq_true, if_false]
            rw [hg])
        rw [hcong]
        exact map_groupVals_zip f ns vs hnd2 hlen2

theorem aggregateRows_zip (catalog : List String) (vs : List ℚ) (hnd : catalog.Nodup)
    (hlen : vs.length = catalog.length) :
    aggregateRows catalog (catalog.zip vs) =
      (catalog.zip vs).map (fun p => (p.1, p.2, (none : Option ℚ), rankMin vs p.2)) := by
  have hfst : (catalog.zip vs).map Prod.fst = catalog :=
    List.map_fst_zip _ _ (le_of_eq hlen.symm)
  have hfko : catalog.filter (fun d => decide (d ∈ catalog)) = catalog :=
    List.filter_eq_self.mpr (fun a ha => by simp [ha])
  have hfko2 : catalog.filter (fun k => decide (k ∉ catalog)) = [] :=
    List.filter_eq_nil_iff.mpr (fun a ha => by simp [ha])
  have hgrp := map_groupVals_zip (fun n g => (n, listMean g, listVar g)) catalog vs hnd hlen
  have hsing : (catalog.zip vs).map (fun p => (p.1, listMean [p.2], listVar [p.2])) =
      (catalog.zip vs).map (fun p => (p.1, p.2, (none : Option ℚ))) :=
    List.map_congr_left (fun p _ => by simp [listMean, listVar])
  have hmeans : (((catalog.zip vs).map (fun p => (p.1, p.2, (none : Option ℚ)))).map
      (fun x => x.2.1)) = vs := by
    rw [List.map_map]
    have := map_comp_snd catalog vs id (le_of_eq hlen)
    simpa using this
  simp only [aggregateRows, hfst, keysInOrder_nodup_self catalog hnd, hfko, hfko2,
    List.append_nil, hgrp, hsing, hmeans, List.map_map]
  rfl

theorem aggregateRows_single (catalog : List String) (rowsAll : List (String × ℚ))
    (hnd : catalog.Nodup) (hfst : rowsAll.map Prod.fst = catalog) :
    aggregateRows catalog rowsAll =
      rowsAll.map (fun p => (p.1, p.2, (none : Option ℚ),
        rankMin (rowsAll.map Prod.snd) p.2)) := by
  have hzip : catalog.zip (rowsAll.map Prod.snd) = rowsAll := by
    have h0 := List.zip_unzip rowsAll
    rw [List.unzip_eq_map] at h0
    rw [← hfst]
    exact h0
  have hlen : (rowsAll.map Prod.snd).length = catalog.length := by
    rw [← hfst]
    simp
  have h1 := aggregateRows_zip catalog (rowsAll.map Prod.snd) hnd hlen
  rw [hzip] at h1
  exact h1

theorem aggregateDef_zip (catalog : List String) (vs : List (ℚ × ℚ × ℚ))
    (hnd : catalog.Nodup) (hlen : vs.length = catalog.length) :
    aggregateDef catalog (catalog.zip vs) =
      (catalog.zip vs).map (fun p =>
        (p.1, p.2.1, p.2.2.1, p.2.2.2, (none : Option ℚ),
          rankMin (vs.map (fun v => v.2.2)) p.2.2.2)) := by
  have hfst : (catalog.zip vs).map Prod.fst = catalog :=
    List.map_fst_zip _ _ (le_of_eq hlen.symm)
  have hfko : catalog.filter (fun d => decide (d ∈ catalog)) = catalog :=
    List.filter_eq_self.mpr (fun a ha => by simp [ha])
  have hfko2 : catalog.filter (fun k => decide (k ∉ catalog)) = [] :=
    List.filter_eq_nil_iff.mpr (fun a ha => by simp [ha])
  have hgrp := map_groupVals_zip (fun n g =>
    (n, listMean (g.map (fun v => v.1)), listMean (g.map (fun v => v.2.1)),
      listMean (g.map (fun v => v.2.2)), listVar (g.map (fun v => v.2.2))))
    catalog vs hnd hlen
  have hsing : (catalog.zip vs).map (fun p =>
      (p.1, listMean (List.map (fun v => v.1) [p.2]), listMean (List.map (fun v => v.2.1) [p.2]),
        listMean (List.map (fun v => v.2.2) [p.2]), listVar (List.map (fun v => v.2.2) [p.2]))) =
      (catalog.zip vs).map (fun p =>
        (p.1, p.2.1, p.2.2.1, p.2.2.2, (none : Option ℚ))) :=
    List.map_congr_left (fun p _ => by simp [listMean, listVar])
  have hmeans : (((catalog.zip vs).map (fun p =>
      (p.1, p.2.1, p.2.2.1, p.2.2.2, (none : Option ℚ)))).map (fun x => x.2.2.2.1)) =
      vs.map (fun v => v.2.2) := by
    rw [List.map_map]
    exact map_comp_snd catalog vs (fun v => v.2.2) (le_of_eq hlen)
  simp only [aggregateDef, hfst, keysInOrder_nodup_self catalog hnd, hfko, hfko2,
    List.append_nil, hgrp, hsing, hmeans, List.map_map]
  rfl

theorem aggregateDef_single (catalog : List String) (rowsAll : List (String × ℚ × ℚ × ℚ))
    (hnd : catalog.Nodup) (hfst : rowsAll.map Prod.fst = catalog) :
    aggregateDef catalog rowsAll =
      rowsAll.map (fun p => (p.1, p.2.1, p.2.2.1, p.2.2.2, (none : Option ℚ),
        rankMin ((rowsAll.map Prod.snd).map (fun v => v.2.2)) p.2.2.2)) := by
  have hzip : catalog.zip (rowsAll.map Prod.snd) = rowsAll := by
    have h0 := List.zip_unzip rowsAll
    rw [List.unzip_eq_map] at h0
    rw [← hfst]
    exact h0
  have hlen : (rowsAll.map Prod.snd).length = catalog.length := by
    rw [← hfst]
    simp
  have h1 := aggregateDef_zip catalog (rowsAll.map Prod.snd) hnd hlen
  rw [hzip] at h1
  exact h1

theorem processStep_preserves (st : FileState) (f : Option Table)
    (h1 : st.firstTable = none → st.discs = [] ∧ st.defs = [])
    (h2 : st.discs.length ≤ 1) (h3 : st.defs.length ≤ 1)
    (h4 : ∀ d ∈ st.discs, d.map (fun r => r.1) = DISCIPLINES)
    (h5 : ∀ fd ∈ st.defs, fd.map (fun r => r.1) = DEFLIST) :
    ((processStep st f).firstTable = none →
      (processStep st f).discs = [] ∧ (processStep st f).defs = []) ∧
    (processStep st f).discs.length ≤ 1 ∧ (processStep st f).defs.length ≤ 1 ∧
    (∀ d ∈ (processStep st f).discs, d.map (fun r => r.1) = DISCIPLINES) ∧
    (∀ fd ∈ (processStep st f).defs, fd.map (fun r => r.1) = DEFLIST) := by
  cases f with
  | none => exact ⟨h1, h2, h3, h4, h5⟩
  | some df0 =>
    by_cases hc : check_table_structure df0 = true
    · cases hft : st.firstTable with
      | some tb =>
        simp only [processStep, hc, if_true, hft]
        exact ⟨by simp, h2, h3, h4, h5⟩
      | none =>
        obtain ⟨hd, hf⟩ := h1 hft
        cases hsp : calculate_sumproduct (truncTable df0) with
        | none =>
          simp only [processStep, hc, if_true, hft, hsp]
          simp [hd, hf]
        | some d =>
          cases hdt : calculate_deficiency_totals (truncTable df0) with
          | none =>
            simp only [processStep, hc, if_true, hft, hsp, hdt]
            simp [hd, hf]
          | some fd =>
            simp only [processStep, hc, if_true, hft, hsp, hdt]
            refine ⟨by simp, by simp [hd], by simp [hf], ?_, ?_⟩
            · intro x hx
              simp only [hd, List.nil_append, List.mem_singleton] at hx
              rw [hx]
              exact (sumproduct_cols hsp).1
            · intro x hx
              simp only [hf, List.nil_append, List.mem_singleton] at hx
              rw [hx]
              exact (deficiency_cols hdt).1
    · have hc2 : check_table_structure df0 = false := by
        cases hcv : check_table_structure df0
        · rfl
        · exact absurd hcv hc
      simp only [processStep, hc2, Bool.false_eq_true, if_false]
      exact ⟨h1, h2, h3, h4, h5⟩

theorem foldl_preserves : ∀ (files : List (Option Table)) (st : FileState),
    (st.firstTable = none → st.discs = [] ∧ st.defs = []) →
    st.discs.length ≤ 1 → st.defs.length ≤ 1 →
    (∀ d ∈ st.discs, d.map (fun r => r.1) = DISCIPLINES) →
    (∀ fd ∈ st.defs, fd.map (fun r => r.1) = DEFLIST) →
    ((files.foldl processStep st).firstTable = none →
      (files.foldl processStep st).discs = [] ∧ (files.foldl processStep st).defs = []) ∧
    (files.foldl processStep st).discs.length ≤ 1 ∧
    (files.foldl processStep st).defs.length ≤ 1 ∧
    (∀ d ∈ (files.foldl processStep st).discs, d.map (fun r => r.1) = DISCIPLINES) ∧
    (∀ fd ∈ (files.foldl processStep st).defs, fd.map (fun r => r.1) = DEFLIST)
  | [], st, h1, h2, h3, h4, h5 => ⟨h1, h2, h3, h4, h5⟩
  | f :: fs, st, h1, h2, h3, h4, h5 => by
    rw [List.foldl_cons]
    obtain ⟨g1, g2, g3, g4, g5⟩ := processStep_preserves st f h1 h2 h3 h4 h5
    exact foldl_preserves fs _ g1 g2 g3 g4 g5

theorem processStep_no_contrib (st : FileState) (f : Option Table)
    (hbad : fileOk f = false) :
    (processStep st f).discs = st.discs ∧ (processStep st f).defs = st.defs := by
  cases f with
  | none => exact ⟨rfl, rfl⟩
  | some t =>
    by_cases hc : check_table_structure t = true
    · cases hft : st.firstTable with
      | some tb =>
        simp only [processStep, hc, if_true, hft]
        exact ⟨trivial, trivial⟩
      | none =>
        cases hsp : calculate_sumproduct (truncTable t) with
        | none =>
          simp only [processStep, hc, if_true, hft, hsp]
          exact ⟨trivial, trivial⟩
        | some d =>
          cases hdt : calculate_deficiency_totals (truncTable t) with
          | none =>
            simp only [processStep, hc, if_true, hft, hsp, hdt]
            exact ⟨trivial, trivial⟩
          | some fd =>
            exfalso
            simp [fileOk, hc, hsp, hdt] at hbad
    · have hc2 : check_table_structure t = false := by
        cases hcv : check_table_structure t
        · rfl
        · exact absurd hcv hc
      simp only [processStep, hc2, Bool.false_eq_true, if_false]
      exact ⟨trivial, trivial⟩

theorem foldl_no_contrib : ∀ (files : List (Option Table)) (st : FileState),
    (∀ f ∈ files, fileOk f = false) →
    (files.foldl processStep st).discs = st.discs ∧
    (files.foldl processStep st).defs = st.defs
  | [], _, _ => ⟨rfl, rfl⟩
  | f :: fs, st, hbad => by
    rw [List.foldl_cons]
    obtain ⟨e1, e2⟩ := processStep_no_contrib st f (hbad f (List.mem_cons_self f fs))
    obtain ⟨e3, e4⟩ := foldl_no_contrib fs (processStep st f)
      (fun g hg => hbad g (List.mem_cons_of_mem f hg))
    exact ⟨e3.trans e1, e4.trans e2⟩

/-- C2: over any file list, at most one per-file result set is ever appended
to the aggregation lists - after the first structurally valid file sets
`first_table`, the `first_table==None` comparison raises for every later file
and the exception handler skips it - and whenever the run reaches aggregation
each aggregate group holds exactly one sample. -/
theorem only_first_valid_file_contributes (files : List (Option Table)) :
    (files.foldl processStep initState).discs.length ≤ 1 ∧
    (files.foldl processStep initState).defs.length ≤ 1 ∧
    (exceptIsOk (processFiles files) = true →
      (files.foldl processStep initState).discs.length = 1 ∧
      (files.foldl processStep initState).defs.length = 1) := by
  obtain ⟨g1, g2, g3, g4, g5⟩ := foldl_preserves files initState
    (fun _ => ⟨rfl, rfl⟩) (by simp [initState]) (by simp [initState])
    (by simp [initState]) (by simp [initState])
  refine ⟨g2, g3, fun hok => ?_⟩
  simp only [processFiles] at hok
  by_cases hne : files.isEmpty = true
  · rw [if_pos hne] at hok
    simp [exceptIsOk] at hok
  · rw [if_neg hne] at hok
    by_cases habort : ((files.foldl processStep initState).discs.isEmpty ||
        (files.foldl processStep initState).defs.isEmpty ||
        (files.foldl processStep initState).firstTable.isNone) = true
    · rw [if_pos habort] at hok
      simp [exceptIsOk] at hok
    · have h0 := habort
      simp only [Bool.or_eq_true, not_or, Bool.not_eq_true] at h0
      obtain ⟨⟨hdne, hfne⟩, _⟩ := h0
      have hd1 : (files.foldl processStep initState).discs ≠ [] := by
        intro e
        rw [e] at hdne
        simp at hdne
      have hf1 : (files.foldl processStep initState).defs ≠ [] := by
        intro e
        rw [e] at hfne
        simp at hfne
      have hp1 := List.length_pos.mpr hd1
      have hp2 := List.length_pos.mpr hf1
      exact ⟨by omega, by omega⟩

theorem only_first_valid_file_contributes_witness :
    ([some vtA, some vtB].foldl processStep initState).discs.length = 1 ∧
    ([some vtA, some vtB].foldl processStep initState).defs.length = 1 :=
  (only_first_valid_file_contributes [some vtA, some vtB]).2.2
    (by with_unfolding_all decide)

/-- C8: when no file contributes a per-file result (unreadable, invalid, or
uncomputable), aggregation is skipped and the run ends with the single
run-fatal message logged by the source (and hence no output workbook is
produced). -/
theorem no_valid_files_aborts_run (files : List (Option Table)) (hne : files ≠ [])
    (hbad : ∀ f ∈ files, fileOk f = false) :
    processFiles files = Except.error "Не удалось обработать ни один файл" := by
  obtain ⟨hd, hf⟩ := foldl_no_contrib files initState hbad
  simp only [processFiles]
  have hni : files.isEmpty = false := by
    cases files with
    | nil => exact absurd rfl hne
    | cons a l => rfl
  rw [if_neg (by simp [hni])]
  have hde : (files.foldl processStep initState).discs.isEmpty = true := by
    rw [hd]
    rfl
  rw [if_pos (by simp [hde])]

theorem no_valid_files_aborts_run_witness :
    processFiles [none] = Except.error "Не удалось обработать ни один файл" :=
  no_valid_files_aborts_run [none] (by simp) (by decide)

/-- C5: when exactly one file is processed successfully, both aggregate
tables equal that file's per-file results: each mean is the single sample,
each recomputed rank is the per-file rank, and the one-sample standard
deviation is the NaN sentinel (`none`), not a crash. -/
theorem single_file_aggregate_equals_per_file (T : Table)
    (dRows : List (String × ℚ × ℕ)) (fRows : List (String × ℚ × ℚ × ℚ × ℕ))
    (hck : check_table_structure T = true)
    (hd : calculate_sumproduct (truncTable T) = some dRows)
    (hf : calculate_deficiency_totals (truncTable T) = some fRows) :
    ∃ res, processFiles [some T] = Except.ok res ∧
      res.disciplines = dRows.map (fun r => (r.1, r.2.1, (none : Option ℚ), r.2.2)) ∧
      res.deficiencies = fRows.map (fun r =>
        (r.1, r.2.1, r.2.2.1, r.2.2.2.1, (none : Option ℚ), r.2.2.2.2)) := by
  have hstep : processStep initState (some T) =
      { discs := [dRows], defs := [fRows],
        numeric := [numericBlock (truncTable T)], firstTable := some (truncTable T) } := by
    simp only [processStep, hck, if_true, initState, hd, hf, List.nil_append]
  have hfold : [some T].foldl processStep initState =
      { discs := [dRows], defs := [fRows],
        numeric := [numericBlock (truncTable T)], firstTable := some (truncTable T) } := by
    rw [List.foldl_cons, List.foldl_nil, hstep]
  -- the discipline aggregate of the single table
  obtain ⟨hall, hrows⟩ := sumproduct_some_guard hd
  have hDnd : DISCIPLINES.Nodup := by with_unfolding_all decide
  have hFnd : DEFLIST.Nodup := by with_unfolding_all decide
  have hfstD : (dRows.map (fun r => (r.1, r.2.1))).map Prod.fst = DISCIPLINES := by
    rw [List.map_map]
    exact (sumproduct_cols hd).1
  have hsndD : (dRows.map (fun r => (r.1, r.2.1))).map Prod.snd =
      dRows.map (fun r => r.2.1) := by
    rw [List.map_map]
    rfl
  have hpointD : ∀ r ∈ dRows,
      rankMin (dRows.map (fun x => x.2.1)) r.2.1 = r.2.2 := by
    intro r hr
    have htot : dRows.map (fun x => x.2.1) =
        (totals13 (truncTable T)).map (fun o => o.getD 0) := by
      rw [hrows, List.map_map]
      have hlen : ((totals13 (truncTable T)).map (fun o => o.getD 0)).length = 13 := by
        simp [totals13_length]
      have := map_comp_snd DISCIPLINES ((totals13 (truncTable T)).map (fun o => o.getD 0)) id
        (by rw [hlen]; exact Nat.le.refl)
      simpa using this
    rw [hrows] at hr
    obtain ⟨p, hp, he⟩ := List.mem_map.mp hr
    rw [← he, htot]
  have haggD : aggregateRows DISCIPLINES (dRows.map (fun r => (r.1, r.2.1))) =
      dRows.map (fun r => (r.1, r.2.1, (none : Option ℚ), r.2.2)) := by
    rw [aggregateRows_single DISCIPLINES _ hDnd hfstD, hsndD, List.map_map]
    exact List.map_congr_left (fun r hr => by
      simp only [Function.comp_apply]
      rw [hpointD r hr])
  -- the deficiency aggregate of the single table
  have hfstF : (fRows.map (fun r => (r.1, (r.2.1, r.2.2.1, r.2.2.2.1)))).map Prod.fst =
      DEFLIST := by
    rw [List.map_map]
    exact (deficiency_cols hf).1
  have hsndF : ((fRows.map (fun r => (r.1, (r.2.1, r.2.2.1, r.2.2.2.1)))).map Prod.snd).map
      (fun v => v.2.2) = fRows.map (fun r => r.2.2.2.1) := by
    rw [List.map_map, List.map_map]
    rfl
  have hwcol : fRows.map (fun r => r.2.2.2.1) = weighted7 (truncTable T) :=
    (deficiency_cols hf).2.1
  have hpointF : ∀ r ∈ fRows,
      rankMin (weighted7 (truncTable T)) r.2.2.2.1 = r.2.2.2.2 := by
    intro r hr
    rw [deficiency_shape hf] at hr
    obtain ⟨p, hp, he⟩ := List.mem_map.mp hr
    rw [← he]
  have haggF : aggregateDef DEFLIST (fRows.map (fun r => (r.1, (r.2.1, r.2.2.1, r.2.2.2.1)))) =
      fRows.map (fun r =>
        (r.1, r.2.1, r.2.2.1, r.2.2.2.1, (none : Option ℚ), r.2.2.2.2)) := by
    rw [aggregateDef_single DEFLIST _ hFnd hfstF, hsndF, hwcol, List.map_map]
    exact List.map_congr_left (fun r hr => by
      simp only [Function.comp_apply]
      rw [hpointF r hr])
  have hfl1 : ([dRows].flatten) = dRows := by simp
  have hfl2 : ([fRows].flatten) = fRows := by simp
  refine ⟨RunResult.mk
    (aggregateRows DISCIPLINES (([dRows].flatten).map (fun r => (r.1, r.2.1))))
    (aggregateDef DEFLIST
      (([fRows].flatten).map (fun r => (r.1, (r.2.1, r.2.2.1, r.2.2.2.1)))))
    ((meanNumeric [numericBlock (truncTable T)]).getD 0 [])
    ((meanNumeric [numericBlock (truncTable T)]).drop 1)
    (negativeRatings ((meanNumeric [numericBlock (truncTable T)]).getD 0 [])
      ((meanNumeric [numericBlock (truncTable T)]).drop 1)), ?_, ?_, ?_⟩
  · simp only [processFiles]
    rw [if_neg (by simp), hfold]
    rw [if_neg (by simp)]
  · rw [hfl1]
    exact haggD
  · rw [hfl2]
    exact haggF

theorem single_file_aggregate_equals_per_file_witness :
    ∃ res, processFiles [some vtA] = Except.ok res ∧
      res.disciplines = (DISCIPLINES.map (fun d => (d, (7 : ℚ), 1))).map
        (fun r => (r.1, r.2.1, (none : Option ℚ), r.2.2)) ∧
      res.deficiencies = (DEFLIST.map (fun n => (n, (1 : ℚ), (13 : ℚ), (13 : ℚ), 1))).map
        (fun r => (r.1, r.2.1, r.2.2.1, r.2.2.2.1, (none : Option ℚ), r.2.2.2.2)) :=
  single_file_aggregate_equals_per_file vtA
    (DISCIPLINES.map (fun d => (d, (7 : ℚ), 1)))
    (DEFLIST.map (fun n => (n, (1 : ℚ), (13 : ℚ), (13 : ℚ), 1)))
    (by with_unfolding_all decide) (by with_unfolding_all decide)
    (by with_unfolding_all decide)

/-- C6: every aggregate table the run produces lists its rows in canonical
catalog order - the 13 disciplines in DISCIPLINES order and the 7 deficiency
labels with the synthetic "too much theory" label first - for every input
file list. -/
theorem aggregate_tables_in_catalog_order (files : List (Option Table))
    (res : RunResult) (h : processFiles files = Except.ok res) :
    res.disciplines.map (fun r => r.1) = DISCIPLINES ∧
    res.deficiencies.map (fun r => r.1) = DEFLIST := by
  obtain ⟨g1, g2, g3, g4, g5⟩ := foldl_preserves files initState
    (fun _ => ⟨rfl, rfl⟩) (by simp [initState]) (by simp [initState])
    (by simp [initState]) (by simp [initState])
  simp only [processFiles] at h
  by_cases hne : files.isEmpty = true
  · rw [if_pos hne] at h
    exact absurd h (by simp)
  · rw [if_neg hne] at h
    by_cases habort : ((files.foldl processStep initState).discs.isEmpty ||
        (files.foldl processStep initState).defs.isEmpty ||
        (files.foldl processStep initState).firstTable.isNone) = true
    · rw [if_pos habort] at h
      exact absurd h (by simp)
    · rw [if_neg habort] at h
      have hres := (Except.ok.injEq _ _).mp h
      have h0 := habort
      simp only [Bool.or_eq_true, not_or, Bool.not_eq_true] at h0
      obtain ⟨⟨hdne, hfne⟩, _⟩ := h0
      constructor
      · cases hcase : (files.foldl processStep initState).discs with
        | nil =>
          rw [hcase] at hdne
          simp at hdne
        | cons d rest =>
          have hrest : rest = [] := by
            have hl := g2
            rw [hcase] at hl
            simp only [List.length_cons] at hl
            exact List.length_eq_zero.mp (by omega)
          have hnames : d.map (fun r => r.1) = DISCIPLINES := by
            refine g4 d ?_
            rw [hcase]
            exact List.mem_cons_self d rest
          have hfstD : (d.map (fun r => (r.1, r.2.1))).map Prod.fst = DISCIPLINES := by
            rw [List.map_map]
            exact hnames
          rw [← hres]
          show (aggregateRows DISCIPLINES
            (((files.foldl processStep initState).discs.flatten).map
              (fun r => (r.1, r.2.1)))).map (fun r => r.1) = DISCIPLINES
          rw [hcase, hrest]
          rw [show (([d] : List (List (String × ℚ × ℕ))).flatten) = d from by simp]
          rw [aggregateRows_single DISCIPLINES _ (by with_unfolding_all decide) hfstD,
            List.map_map, List.map_map]
          exact hnames
      · cases hcase : (files.foldl processStep initState).defs with
        | nil =>
          rw [hcase] at hfne
          simp at hfne
        | cons fd rest =>
          have hrest : rest = [] := by
            have hl := g3
            rw [hcase] at hl
            simp only [List.length_cons] at hl
            exact List.length_eq_zero.mp (by omega)
          have hnames : fd.map (fun r => r.1) = DEFLIST := by
            refine g5 fd ?_
            rw [hcase]
            exact List.mem_cons_self fd rest
          have hfstF : (fd.map (fun r => (r.1, (r.2.1, r.2.2.1, r.2.2.2.1)))).map
              Prod.fst = DEFLIST := by
            rw [List.map_map]
            exact hnames
          rw [← hres]
          show (aggregateDef DEFLIST
            (((files.foldl processStep initState).defs.flatten).map
              (fun r => (r.1, (r.2.1, r.2.2.1, r.2.2.2.1))))).map (fun r => r.1) = DEFLIST
          rw [hcase, hrest]
          rw [show (([fd] : List (List (String × ℚ × ℚ × ℚ × ℕ))).flatten) = fd from by simp]
          rw [aggregateDef_single DEFLIST _ (by with_unfolding_all decide) hfstF,
            List.map_map, List.map_map]
          exact hnames

theorem aggregate_tables_in_catalog_order_witness :
    ∃ res, processFiles [some vtA] = Except.ok res ∧
      res.disciplines.map (fun r => r.1) = DISCIPLINES ∧
      res.deficiencies.map (fun r => r.1) = DEFLIST := by
  have hok : exceptIsOk (processFiles [some vtA]) = true := by
    with_unfolding_all decide
  cases hp : processFiles [some vtA] with
  | error e =>
    rw [hp] at hok
    simp [exceptIsOk] at hok
  | ok res =>
    refine ⟨res, rfl, ?_⟩
    exact aggregate_tables_in_catalog_order [some vtA] res hp

/-- C1 is refuted as stated: permuting the input files changes the aggregate
result, because only the first structurally valid file is ever aggregated
(the `first_table==None` comparison raises a ValueError for every later
file).  With the all-ones sheet first the discipline means are 7; with the
all-twos sheet first they are 14. -/
theorem aggregate_differs_under_file_permutation :
    (processFiles [some vtA, some vtB]).toOption.map (fun r => r.disciplines) ≠
      (processFiles [some vtB, some vtA]).toOption.map (fun r => r.disciplines) := by
  with_unfolding_all decide

/-- C9: there are tables that pass every check of `check_table_structure` and
on which `calculate_deficiency_totals` still returns None: validation range-
and NaN-checks only the six anonymous columns, while the computation also
coerces the `Недостаток` column, whose text cell becomes NaN and triggers the
missing-value branch. -/
theorem validated_table_can_fail_deficiency_totals :
    check_table_structure vt9 = true ∧ calculate_deficiency_totals vt9 = none := by
  refine ⟨?_, ?_⟩ <;> with_unfolding_all decide

theorem sumSkipNa_allSome : ∀ (l : List (Option ℚ)), (∀ o ∈ l, o.isSome = true) →
    sumSkipNa l = (l.map (fun o => o.getD 0)).sum
  | [], _ => rfl
  | o :: l, h => by
    obtain ⟨x, hx⟩ := Option.isSome_iff_exists.mp (h o (List.mem_cons_self o l))
    have ih := sumSkipNa_allSome l (fun p hp => h p (List.mem_cons_of_mem _ hp))
    subst hx
    simp only [sumSkipNa, List.filterMap_cons, id, List.sum_cons, List.map_cons,
      Option.getD_some] at ih ⊢
    rw [ih]

theorem zipWith_optMul_isSome : ∀ (l1 l2 : List (Option ℚ)),
    (∀ o ∈ l1, o.isSome = true) → (∀ o ∈ l2, o.isSome = true) →
    ∀ o ∈ List.zipWith optMul l1 l2, o.isSome = true
  | [], _, _, _ => by simp
  | _ :: _, [], _, _ => by simp
  | a :: l1, b :: l2, h1, h2 => by
    intro o ho
    rw [List.zipWith_cons_cons] at ho
    rcases List.mem_cons.mp ho with he | hm
    · obtain ⟨x, hx⟩ := Option.isSome_iff_exists.mp (h1 a (List.mem_cons_self a l1))
      obtain ⟨y, hy⟩ := Option.isSome_iff_exists.mp (h2 b (List.mem_cons_self b l2))
      subst hx
      subst hy
      subst he
      simp [optMul]
    · exact zipWith_optMul_isSome l1 l2
        (fun p hp => h1 p (List.mem_cons_of_mem _ hp))
        (fun p hp => h2 p (List.mem_cons_of_mem _ hp)) o hm

theorem sum_eq_range_getD : ∀ (n : ℕ) (l : List ℚ), l.length = n →
    l.sum = ((List.range n).map (fun j => l.getD j 0)).sum
  | 0, l, h => by
    rw [List.length_eq_zero.mp h]
    rfl
  | n + 1, l, h => by
    cases l with
    | nil => simp at h
    | cons a l =>
      rw [List.range_succ_eq_map, List.map_cons, List.sum_cons, List.sum_cons, List.map_map]
      refine congrArg₂ _ rfl ?_
      rw [sum_eq_range_getD n l (by simpa using h)]
      refine congrArg _ (List.map_congr_left (fun j _ => ?_))
      simp [Function.comp, Nat.succ_eq_add_one, List.getD_cons_succ]

/-- C10: each discipline row of the reconstructed mean-value table stores as
its relative negative rating the percentage of its absolute rating - the sum
over the seven weighted columns of mean score times mean importance - in the
theoretical maximum, the sum of the seven mean importance weights times 10;
the stored value is that percentage rounded to two decimals, computed from
the unrounded absolute rating. -/
theorem relative_rating_is_percentage_of_max (imp : List (Option ℚ))
    (scoreRows : List (List (Option ℚ))) (i : ℕ)
    (himp : imp.length = 7) (hallimp : ∀ o ∈ imp, o.isSome = true)
    (hi : i < scoreRows.length)
    (hrow : (scoreRows.getD i []).length = 7)
    (hallrow : ∀ o ∈ scoreRows.getD i [], o.isSome = true) :
    ((negativeRatings imp scoreRows).getD i (0, 0)).2 =
      pyRound2 ((((List.range 7).map (fun j =>
          ((scoreRows.getD i []).getD j none).getD 0 * (imp.getD j none).getD 0)).sum /
        (((List.range 7).map (fun j => (imp.getD j none).getD 0)).sum * 10)) * 100) := by
  have hmap : (negativeRatings imp scoreRows).getD i (0, 0) =
      (fun row : List (Option ℚ) =>
        (pyRound2 (sumSkipNa (List.zipWith optMul row imp)),
         pyRound2 (sumSkipNa (List.zipWith optMul row imp) / (sumSkipNa imp * 10) * 100)))
      (scoreRows.getD i []) := by
    simp only [negativeRatings]
    exact getD_map_lt _ (0, 0) [] scoreRows i hi
  have hprod : sumSkipNa (List.zipWith optMul (scoreRows.getD i []) imp) =
      ((List.range 7).map (fun j =>
        ((scoreRows.getD i []).getD j none).getD 0 * (imp.getD j none).getD 0)).sum := by
    rw [sumSkipNa_allSome _ (zipWith_optMul_isSome _ _ hallrow hallimp)]
    rw [map_getD_zipWith_optMul]
    rw [zipWith_mul_eq_range_map 7 _ _ (by rw [List.length_map, hrow])
      (by rw [List.length_map, himp])]
    refine congrArg _ (List.map_congr_left (fun j hj => ?_))
    have hj7 : j < 7 := List.mem_range.mp hj
    rw [getD_map_lt (fun o => o.getD 0) 0 none (scoreRows.getD i []) j
        (by rw [hrow]; exact hj7),
      getD_map_lt (fun o => o.getD 0) 0 none imp j (by rw [himp]; exact hj7)]
  have himps : sumSkipNa imp =
      ((List.range 7).map (fun j => (imp.getD j none).getD 0)).sum := by
    rw [sumSkipNa_allSome imp hallimp,
      sum_eq_range_getD 7 _ (by rw [List.length_map, himp])]
    refine congrArg _ (List.map_congr_left (fun j hj => ?_))
    rw [getD_map_lt (fun o => o.getD 0) 0 none imp j
      (by rw [himp]; exact List.mem_range.mp hj)]
  rw [hmap]
  simp only []
  rw [hprod, himps]

theorem relative_rating_is_percentage_of_max_witness :
    ((negativeRatings (List.replicate 7 (some (1 : ℚ)))
        (List.replicate 13 (List.replicate 7 (some (1 : ℚ))))).getD 0 (0, 0)).2 =
      pyRound2 ((((List.range 7).map (fun j =>
          (((List.replicate 13 (List.replicate 7 (some (1 : ℚ)))).getD 0 []).getD j none).getD 0 *
            ((List.replicate 7 (some (1 : ℚ))).getD j none).getD 0)).sum /
        (((List.range 7).map (fun j =>
          ((List.replicate 7 (some (1 : ℚ))).getD j none).getD 0)).sum * 10)) * 100) :=
  relative_rating_is_percentage_of_max (List.replicate 7 (some (1 : ℚ)))
    (List.replicate 13 (List.replicate 7 (some (1 : ℚ)))) 0
    (by with_unfolding_all decide) (by with_unfolding_all decide)
    (by with_unfolding_all decide) (by with_unfolding_all decide)
    (by with_unfolding_all decide)
